import Mathlib

/-!
Verification of the BSignals signal/slot dispatch engine
(`src/inc/BSignals/details/SignalImpl.hpp`, `Semaphore.h`).

The engine `SignalImpl<Args...>` keeps four `std::map<uint32_t, slot>`
registries (one per `ExecutorScheme`), a per-strand queue/thread pair,
an atomic `uint32_t` id counter, and a counting semaphore throttling
the asynchronous scheme.  `std::map` iterates in ascending key order;
we embed each registry as an association list kept sorted by key, which
is exactly the observable content of a `std::map` walk.  Callbacks are
opaque values of a parameter type `F`, the emitted argument tuple is an
opaque value of a parameter type `A`, and each operation additionally
returns the ordered list of externally observable actions it performs
(slot invocations, semaphore operations, thread spawns/joins, queue
pushes), so that ordering claims become statements about these traces.

`ExecutorScheme` is a C++ `enum class` over an integral underlying
type; values other than the four declared enumerators are expressible
by casting, and `getSlotMap`'s `switch` has a `default:` label.  We
therefore embed a scheme as the underlying integer value (declaration
order gives SYNCHRONOUS = 0, ASYNCHRONOUS = 1, STRAND = 2,
THREAD_POOLED = 3).

`MPSCQueue.hpp` and `WheeledThreadPool.h` are not part of the sources;
where their behaviour is needed it is modelled from the spec (see the
doc comments on `strandQueues` entries and on `WheeledThreadPool`
below).  The `uint32_t` id counter wraps modulo 2^32 on `fetch_add`,
which we model explicitly.
-/

namespace BSignals

/-- Underlying integral value of `ExecutorScheme::SYNCHRONOUS` (declared first). -/
def SYNCHRONOUS : Nat := 0

/-- Underlying integral value of `ExecutorScheme::ASYNCHRONOUS`. -/
def ASYNCHRONOUS : Nat := 1

/-- Underlying integral value of `ExecutorScheme::STRAND`. -/
def STRAND : Nat := 2

/-- Underlying integral value of `ExecutorScheme::THREAD_POOLED`. -/
def THREAD_POOLED : Nat := 3

/-- Modulus of the `uint32_t` id counter (`std::atomic<uint32_t> currentId`). -/
def uint32Mod : Nat := 2 ^ 32

/-- Keys of an association list (the key walk of a `std::map`). -/
def keys {β : Type} (l : List (Nat × β)) : List Nat := l.map Prod.fst

/-- Membership test on keys (`std::map::count(id)` ≠ 0). -/
def containsKey {β : Type} (k : Nat) : List (Nat × β) → Bool
  | [] => false
  | p :: t => p.1 == k || containsKey k t

/-- Insertion into a sorted association list, keeping the old value when the
key is already present (`std::map::emplace` does not overwrite). -/
def mapInsert {β : Type} (k : Nat) (v : β) : List (Nat × β) → List (Nat × β)
  | [] => [(k, v)]
  | p :: t =>
    if k < p.1 then (k, v) :: p :: t
    else if k = p.1 then p :: t
    else p :: mapInsert k v t

/-- Removal of a key from an association list (`std::map::erase(id)`). -/
def mapErase {β : Type} (k : Nat) : List (Nat × β) → List (Nat × β)
  | [] => []
  | p :: t => if p.1 = k then t else p :: mapErase k t

/-- Insertion into a sorted list of ids without duplication
(`std::map<uint32_t, std::thread>::emplace`: we only track the key set,
a live dedicated thread per id). -/
def setInsert (k : Nat) : List Nat → List Nat
  | [] => [k]
  | a :: t =>
    if k < a then k :: a :: t
    else if k = a then a :: t
    else a :: setInsert k t

/-- Removal of an id (`strandThreads.erase(id)`). -/
def setErase (k : Nat) : List Nat → List Nat
  | [] => []
  | a :: t => if a = k then t else a :: setErase k t

/-- A strand queue entry: `std::function<void()>`.  `some (f, arg)` is the
argument-bound closure `[&function, p...](){function(p...);}` enqueued by
`runStrands`; `none` is the empty `std::function` (`nullptr`), the shutdown
sentinel enqueued by `disconnectSlot`/`disconnectAllSlots`. -/
abbrev StrandTask (F A : Type) : Type := Option (F × A)

/-- Enqueue onto the strand queue for key `k`:
`strandQueues[asyncQueueId].enqueue(task)`.  `operator[]` default-constructs
an empty queue at the sorted position when the key is absent; `enqueue`
appends at the tail (FIFO: the consumer dequeues from the head).  The queue
itself is modelled from the spec: the MPSC queue delivers tasks to its single
consumer in enqueue order (its source `MPSCQueue.hpp` is not in `src/`). -/
def enqueueTask {τ : Type} (k : Nat) (t : τ) : List (Nat × List τ) → List (Nat × List τ)
  | [] => [(k, [t])]
  | p :: rest =>
    if k < p.1 then (k, [t]) :: p :: rest
    else if k = p.1 then (p.1, p.2 ++ [t]) :: rest
    else p :: enqueueTask k t rest

/-- Externally observable actions of the engine's operations. -/
inductive Event (F A : Type) where
  /-- `runSynchronous`: the slot is called inline with the emitted arguments. -/
  | syncInvoke (id : Nat) (f : F) (arg : A)
  /-- `sem.acquire()` executed on the emitting thread (`runAsynchronous`). -/
  | semAcquire
  /-- Spawning the detached `std::thread` running the slot (`runAsynchronous`). -/
  | spawnDetached (id : Nat) (f : F) (arg : A)
  /-- `runStrands`: the bound closure is pushed on the strand's queue. -/
  | strandEnqueue (id : Nat) (f : F) (arg : A)
  /-- `runThreadPooled`: the bound closure is pushed on the shared pool queue. -/
  | poolEnqueue (id : Nat) (f : F) (arg : A)
  /-- `strandQueues[id].enqueue(nullptr)`: the shutdown sentinel is pushed. -/
  | pushShutdown (id : Nat)
  /-- `strandThreads[id].join()`: the dedicated worker thread is joined. -/
  | joinStrand (id : Nat)
  /-- `strandThreads.erase(id)` / `strandThreads.clear()`: the thread handle is destroyed. -/
  | releaseThread (id : Nat)
  /-- `strandQueues.erase(id)` / `strandQueues.clear()`: the queue is destroyed. -/
  | releaseQueue (id : Nat)
  /-- `slotMap->erase(id)` / registry `clear()`: the registration is removed. -/
  | removeRegistration (id : Nat)
deriving DecidableEq

/-- Events performed by the detached thread spawned for an asynchronous slot. -/
inductive ThreadEvent (F A : Type) where
  /-- The slot is invoked with the emitted arguments. -/
  | invoke (f : F) (arg : A)
  /-- `sem.release()` after the slot returns. -/
  | semRelease
deriving DecidableEq

/-- State of one `SignalImpl` instance.  `sem` is the semaphore counter
(available permits; `acquire` decrements on the emitting thread, the
detached thread's `release` increments later).  The four registries, the
strand queues and the strand thread map are each sorted by key, as a
`std::map` is. -/
structure SignalState (F A : Type) where
  currentId : Nat
  enableEmissionGuard : Bool
  sem : Int
  synchronousSlots : List (Nat × F)
  asynchronousSlots : List (Nat × F)
  strandSlots : List (Nat × F)
  threadPooledSlots : List (Nat × F)
  strandQueues : List (Nat × List (StrandTask F A))
  strandThreads : List Nat
deriving DecidableEq

/-- A fresh `SignalImpl(enforceThreadSafety, maxAsyncThreads)`; the default
constructor is `SignalState.init false 1024`. -/
def SignalState.init (F A : Type) (guard : Bool) (maxAsyncThreads : Int) : SignalState F A :=
  { currentId := 0
    enableEmissionGuard := guard
    sem := maxAsyncThreads
    synchronousSlots := []
    asynchronousSlots := []
    strandSlots := []
    threadPooledSlots := []
    strandQueues := []
    strandThreads := [] }

/-- Which of the four registries a scheme or an id designates. -/
inductive RegChoice where
  | sync
  | async
  | strand
  | pooled
deriving DecidableEq

/-- The `switch` in `getSlotMap`: `case ASYNCHRONOUS` / `case STRAND` /
`case THREAD_POOLED` each return their registry; `default:` and
`case SYNCHRONOUS:` share the final return of `&synchronousSlots`. -/
def getSlotMap (scheme : Nat) : RegChoice :=
  if scheme = ASYNCHRONOUS then .async
  else if scheme = STRAND then .strand
  else if scheme = THREAD_POOLED then .pooled
  else .sync

/-- Read the registry designated by a `RegChoice`. -/
def SignalState.reg {F A : Type} (s : SignalState F A) : RegChoice → List (Nat × F)
  | .sync => s.synchronousSlots
  | .async => s.asynchronousSlots
  | .strand => s.strandSlots
  | .pooled => s.threadPooledSlots

/-- `slotMap->emplace(id, slot)` on the registry designated by `c`. -/
def insertReg {F A : Type} (c : RegChoice) (id : Nat) (f : F) (s : SignalState F A) :
    SignalState F A :=
  match c with
  | .sync => { s with synchronousSlots := mapInsert id f s.synchronousSlots }
  | .async => { s with asynchronousSlots := mapInsert id f s.asynchronousSlots }
  | .strand => { s with strandSlots := mapInsert id f s.strandSlots }
  | .pooled => { s with threadPooledSlots := mapInsert id f s.threadPooledSlots }

/-- `slotMap->erase(id)` on the registry designated by `c`. -/
def eraseReg {F A : Type} (c : RegChoice) (id : Nat) (s : SignalState F A) :
    SignalState F A :=
  match c with
  | .sync => { s with synchronousSlots := mapErase id s.synchronousSlots }
  | .async => { s with asynchronousSlots := mapErase id s.asynchronousSlots }
  | .strand => { s with strandSlots := mapErase id s.strandSlots }
  | .pooled => { s with threadPooledSlots := mapErase id s.threadPooledSlots }

/-- `findSlotMapWithId`: test the registries in source order
(synchronous, asynchronous, strand, thread-pooled) and return the first
containing `id`, or `nullptr` (`none`). -/
def findSlotMapWithId {F A : Type} (id : Nat) (s : SignalState F A) : Option RegChoice :=
  if containsKey id s.synchronousSlots then some .sync
  else if containsKey id s.asynchronousSlots then some .async
  else if containsKey id s.strandSlots then some .strand
  else if containsKey id s.threadPooledSlots then some .pooled
  else none

/-- Modelled from the spec: process-wide state of `WheeledThreadPool`
(its header is not under `src/`): "Lazily constructed on first
Pooled-scheme connect across any engine instance; lives for process
lifetime; started at most once (idempotent init)".  `startCount` counts
how many times the one-time start-up body actually ran. -/
structure PoolState where
  started : Bool
  startCount : Nat
deriving DecidableEq

/-- The pool state before any Pooled-scheme connect. -/
def PoolState.init : PoolState := { started := false, startCount := 0 }

/-- Modelled from the spec: `WheeledThreadPool::startup()` is an idempotent
one-time initialization — if the pool is already started it does nothing,
otherwise it starts the fixed worker set exactly once. -/
def poolStartup (ps : PoolState) : PoolState :=
  if ps.started then ps else { started := true, startCount := ps.startCount + 1 }

/-- The effect of one `connectSlot` call on the process-wide pool state
(lines 114–116: `else if (scheme == ExecutorScheme::THREAD_POOLED)
{ WheeledThreadPool::startup(); }`). -/
def connectPoolEffect (scheme : Nat) (ps : PoolState) : PoolState :=
  if scheme = THREAD_POOLED then poolStartup ps else ps

/-- `connectSlot(scheme, slot)`: under the exclusive lock, allocate
`id = currentId.fetch_add(1)` (a `uint32_t`, wrapping modulo 2^32), emplace
the slot in `getSlotMap(scheme)`, and for STRAND create the empty queue
(`strandQueues[id]`) and spawn the dedicated listener thread
(`strandThreads.emplace(id, thread(queueListener, id))`); for THREAD_POOLED
run the pool's idempotent start-up.  Returns the allocated id (the
`uint32_t` value that `return (int)id;` reinterprets). -/
def connectSlot {F A : Type} (scheme : Nat) (f : F) (s : SignalState F A) (ps : PoolState) :
    Nat × SignalState F A × PoolState :=
  let id := s.currentId
  let s1 := { s with currentId := (s.currentId + 1) % uint32Mod }
  let s2 := insertReg (getSlotMap scheme) id f s1
  let s3 :=
    if scheme = STRAND then
      { s2 with
        strandQueues := mapInsert id [] s2.strandQueues
        strandThreads := setInsert id s2.strandThreads }
    else s2
  (id, s3, connectPoolEffect scheme ps)

/-- `disconnectSlot(id)`: under the exclusive lock, find the registry holding
`id`; absent ⇒ return with nothing done.  If it is the strand registry:
enqueue the `nullptr` shutdown sentinel, `join()` the dedicated thread, erase
the thread handle, erase the queue, and only then erase the registration.
Otherwise erase the registration directly. -/
def disconnectSlot {F A : Type} [DecidableEq F] [DecidableEq A]
    (id : Nat) (s : SignalState F A) : List (Event F A) × SignalState F A :=
  match findSlotMapWithId id s with
  | none => ([], s)
  | some .strand =>
    ([.pushShutdown id, .joinStrand id, .releaseThread id, .releaseQueue id,
      .removeRegistration id],
     { s with
       strandThreads := setErase id s.strandThreads
       strandQueues := mapErase id s.strandQueues
       strandSlots := mapErase id s.strandSlots })
  | some c => ([.removeRegistration id], eraseReg c id s)

/-- `disconnectAllSlots()`: push the shutdown sentinel onto every strand
queue, join every strand thread, clear the thread map, clear the queue map,
then clear all four registries, in that order. -/
def disconnectAllSlots {F A : Type} (s : SignalState F A) :
    List (Event F A) × SignalState F A :=
  ((keys s.strandQueues).map .pushShutdown
     ++ s.strandThreads.map .joinStrand
     ++ s.strandThreads.map .releaseThread
     ++ (keys s.strandQueues).map .releaseQueue
     ++ (keys s.synchronousSlots ++ keys s.asynchronousSlots
          ++ keys s.strandSlots ++ keys s.threadPooledSlots).map .removeRegistration,
   { s with
     strandThreads := []
     strandQueues := []
     synchronousSlots := []
     asynchronousSlots := []
     strandSlots := []
     threadPooledSlots := [] })

/-- The synchronous block of `emitSignalUnsafe`: `runSynchronous` for each
entry of `synchronousSlots` in map order. -/
def syncPart {F A : Type} (arg : A) : List (Nat × F) → List (Event F A)
  | [] => []
  | p :: t => .syncInvoke p.1 p.2 arg :: syncPart arg t

/-- The asynchronous block of `emitSignalUnsafe`: `runAsynchronous` for each
entry of `asynchronousSlots` in map order — `sem.acquire()` on the emitting
thread, then the detached thread is spawned. -/
def asyncPart {F A : Type} (arg : A) : List (Nat × F) → List (Event F A)
  | [] => []
  | p :: t => .semAcquire :: .spawnDetached p.1 p.2 arg :: asyncPart arg t

/-- The strand block of `emitSignalUnsafe`: `runStrands` for each entry of
`strandSlots` in map order. -/
def strandPart {F A : Type} (arg : A) : List (Nat × F) → List (Event F A)
  | [] => []
  | p :: t => .strandEnqueue p.1 p.2 arg :: strandPart arg t

/-- The thread-pooled block of `emitSignalUnsafe`: `runThreadPooled` for each
entry of `threadPooledSlots` in map order. -/
def poolPart {F A : Type} (arg : A) : List (Nat × F) → List (Event F A)
  | [] => []
  | p :: t => .poolEnqueue p.1 p.2 arg :: poolPart arg t

/-- The body of the detached thread spawned by `runAsynchronous`:
`function(p...); sem.release();`. -/
def detachedThreadBody {F A : Type} (f : F) (arg : A) : List (ThreadEvent F A) :=
  [.invoke f arg, .semRelease]

/-- `emitSignalUnsafe(p...)`: iterate the four registries in the fixed order
synchronous, asynchronous, strand, thread-pooled, each in ascending-key map
order.  Synchronous slots are invoked inline; each asynchronous slot costs
one `sem.acquire()` on the emitting thread and one detached-thread spawn;
each strand slot has the bound closure appended to its queue; each pooled
slot has the bound closure pushed to the shared pool queue. -/
def emitSignalUnsafe {F A : Type} (s : SignalState F A) (arg : A) :
    List (Event F A) × SignalState F A :=
  (syncPart arg s.synchronousSlots
     ++ asyncPart arg s.asynchronousSlots
     ++ strandPart arg s.strandSlots
     ++ poolPart arg s.threadPooledSlots,
   { s with
     strandQueues :=
       s.strandSlots.foldl (fun qs p => enqueueTask p.1 (some (p.2, arg)) qs) s.strandQueues
     sem := s.sem - s.asynchronousSlots.length })

/-- `emitSignalThreadSafe(p...)`: acquires the shared lock, then performs
exactly `emitSignalUnsafe` (the lock only excludes concurrent
connect/disconnect; the dispatched work is identical). -/
def emitSignalThreadSafe {F A : Type} (s : SignalState F A) (arg : A) :
    List (Event F A) × SignalState F A :=
  emitSignalUnsafe s arg

/-- `emitSignal(p...)`: dispatches to the guarded or unguarded emission
according to `enableEmissionGuard`. -/
def emitSignal {F A : Type} (s : SignalState F A) (arg : A) :
    List (Event F A) × SignalState F A :=
  if s.enableEmissionGuard then emitSignalThreadSafe s arg else emitSignalUnsafe s arg

/-- One client operation on a signal instance (the public surface that
mutates or reads the registries). -/
inductive SigOp (F A : Type) where
  | connect (scheme : Nat) (f : F)
  | disconnect (id : Nat)
  | emit (arg : A)
  | disconnectAll
deriving DecidableEq

/-- Apply a list of operations to an engine state and the process-wide pool
state, collecting the ids returned by the `connect` calls in call order. -/
def applyOps {F A : Type} [DecidableEq F] [DecidableEq A] :
    List (SigOp F A) → SignalState F A → PoolState →
    SignalState F A × PoolState × List Nat
  | [], s, ps => (s, ps, [])
  | .connect scheme f :: rest, s, ps =>
    let r := connectSlot scheme f s ps
    let out := applyOps rest r.2.1 r.2.2
    (out.1, out.2.1, r.1 :: out.2.2)
  | .disconnect id :: rest, s, ps => applyOps rest (disconnectSlot id s).2 ps
  | .emit arg :: rest, s, ps => applyOps rest (emitSignal s arg).2 ps
  | .disconnectAll :: rest, s, ps => applyOps rest (disconnectAllSlots s).2 ps

/-- Number of `connect` calls in an operation list. -/
def connectCount {F A : Type} : List (SigOp F A) → Nat
  | [] => 0
  | .connect _ _ :: rest => connectCount rest + 1
  | .disconnect _ :: rest => connectCount rest
  | .emit _ :: rest => connectCount rest
  | .disconnectAll :: rest => connectCount rest

/-- Ascending strict sortedness of an association list's keys — the shape of
any `std::map` walk. -/
def KeysSorted {β : Type} (l : List (Nat × β)) : Prop :=
  List.Pairwise (· < ·) (keys l)

/-- Well-sortedness of every map in the state. -/
def RegSorted {F A : Type} (s : SignalState F A) : Prop :=
  KeysSorted s.synchronousSlots ∧ KeysSorted s.asynchronousSlots ∧
  KeysSorted s.strandSlots ∧ KeysSorted s.threadPooledSlots ∧
  KeysSorted s.strandQueues ∧ List.Pairwise (· < ·) s.strandThreads

/-- No strand queue holds the shutdown sentinel: every stored task is a
non-empty callable. -/
def AllSomeQueues {F A : Type} (s : SignalState F A) : Prop :=
  ∀ q ∈ s.strandQueues, ∀ t ∈ q.2, Option.isSome t

/-- States reachable from a freshly constructed engine by the public
operations (with arbitrary interleaved pool states for connects). -/
inductive Reachable {F A : Type} [DecidableEq F] [DecidableEq A] :
    SignalState F A → Prop where
  | init (g : Bool) (cap : Int) : Reachable (SignalState.init F A g cap)
  | connect {s : SignalState F A} (scheme : Nat) (f : F) (ps : PoolState) :
      Reachable s → Reachable (connectSlot scheme f s ps).2.1
  | disconnect {s : SignalState F A} (id : Nat) :
      Reachable s → Reachable (disconnectSlot id s).2
  | emit {s : SignalState F A} (arg : A) :
      Reachable s → Reachable (emitSignal s arg).2
  | disconnectAll {s : SignalState F A} :
      Reachable s → Reachable (disconnectAllSlots s).2

theorem mem_keys_mapInsert {β : Type} {k x : Nat} {v : β} {l : List (Nat × β)}
    (hx : x ∈ keys (mapInsert k v l)) : x = k ∨ x ∈ keys l := by
  induction l with
  | nil => simpa [mapInsert, keys] using hx
  | cons p t ih =>
    by_cases h1 : k < p.1
    · simpa [mapInsert, keys, h1] using hx
    · by_cases h2 : k = p.1
      · simp only [mapInsert, if_neg h1, if_pos h2] at hx
        exact Or.inr hx
      · simp only [mapInsert, if_neg h1, if_neg h2, keys, List.map_cons,
          List.mem_cons] at hx ⊢
        rcases hx with hx | hx
        · exact Or.inr (Or.inl hx)
        · rcases ih hx with hx | hx
          · exact Or.inl hx
          · exact Or.inr (Or.inr hx)

theorem keysSorted_mapInsert {β : Type} {k : Nat} {v : β} {l : List (Nat × β)}
    (h : KeysSorted l) : KeysSorted (mapInsert k v l) := by
  induction l with
  | nil => simp [KeysSorted, mapInsert, keys]
  | cons p t ih =>
    simp only [KeysSorted, keys, List.map_cons, List.pairwise_cons] at h
    obtain ⟨hp, ht⟩ := h
    by_cases h1 : k < p.1
    · simp only [KeysSorted, mapInsert, if_pos h1, keys, List.map_cons,
        List.pairwise_cons]
      refine ⟨?_, ?_, ht⟩
      · intro x hx
        rcases List.mem_cons.mp hx with rfl | hx
        · exact h1
        · exact lt_trans h1 (hp x hx)
      · exact hp
    · by_cases h2 : k = p.1
      · simp only [KeysSorted, mapInsert, if_neg h1, if_pos h2, keys,
          List.map_cons, List.pairwise_cons]
        exact ⟨hp, ht⟩
      · have hlt : p.1 < k := by omega
        simp only [KeysSorted, mapInsert, if_neg h1, if_neg h2, keys,
          List.map_cons, List.pairwise_cons]
        refine ⟨?_, ih ht⟩
        intro x hx
        rcases mem_keys_mapInsert hx with rfl | hx
        · exact hlt
        · exact hp x hx

theorem mapErase_sublist {β : Type} (k : Nat) (l : List (Nat × β)) :
    List.Sublist (mapErase k l) l := by
  induction l with
  | nil => simp [mapErase]
  | cons p t ih =>
    by_cases h : p.1 = k
    · simp only [mapErase, if_pos h]
      exact List.sublist_cons_self p t
    · simp only [mapErase, if_neg h]
      exact List.Sublist.cons₂ p ih

theorem keysSorted_mapErase {β : Type} {k : Nat} {l : List (Nat × β)}
    (h : KeysSorted l) : KeysSorted (mapErase k l) :=
  List.Pairwise.sublist (List.Sublist.map Prod.fst (mapErase_sublist k l)) h

theorem mem_setInsert {k x : Nat} {l : List Nat}
    (hx : x ∈ setInsert k l) : x = k ∨ x ∈ l := by
  induction l with
  | nil => simpa [setInsert] using hx
  | cons a t ih =>
    by_cases h1 : k < a
    · simpa [setInsert, h1] using hx
    · by_cases h2 : k = a
      · simp only [setInsert, if_neg h1, if_pos h2] at hx
        exact Or.inr hx
      · simp only [setInsert, if_neg h1, if_neg h2, List.mem_cons] at hx ⊢
        rcases hx with hx | hx
        · exact Or.inr (Or.inl hx)
        · rcases ih hx with hx | hx
          · exact Or.inl hx
          · exact Or.inr (Or.inr hx)

theorem pairwise_setInsert {k : Nat} {l : List Nat}
    (h : List.Pairwise (· < ·) l) : List.Pairwise (· < ·) (setInsert k l) := by
  induction l with
  | nil => simp [setInsert]
  | cons a t ih =>
    simp only [List.pairwise_cons] at h
    obtain ⟨ha, ht⟩ := h
    by_cases h1 : k < a
    · simp only [setInsert, if_pos h1, List.pairwise_cons]
      refine ⟨?_, ha, ht⟩
      intro x hx
      rcases List.mem_cons.mp hx with rfl | hx
      · exact h1
      · exact lt_trans h1 (ha x hx)
    · by_cases h2 : k = a
      · simp only [setInsert, if_neg h1, if_pos h2, List.pairwise_cons]
        exact ⟨ha, ht⟩
      · have hlt : a < k := by omega
        simp only [setInsert, if_neg h1, if_neg h2, List.pairwise_cons]
        refine ⟨?_, ih ht⟩
        intro x hx
        rcases mem_setInsert hx with rfl | hx
        · exact hlt
        · exact ha x hx

theorem setErase_sublist (k : Nat) (l : List Nat) :
    List.Sublist (setErase k l) l := by
  induction l with
  | nil => simp [setErase]
  | cons a t ih =>
    by_cases h : a = k
    · simp only [setErase, if_pos h]
      exact List.sublist_cons_self a t
    · simp only [setErase, if_neg h]
      exact List.Sublist.cons₂ a ih

theorem pairwise_setErase {k : Nat} {l : List Nat}
    (h : List.Pairwise (· < ·) l) : List.Pairwise (· < ·) (setErase k l) :=
  List.Pairwise.sublist (setErase_sublist k l) h

theorem mem_mapInsert {β : Type} {k : Nat} {v : β} {q : Nat × β} {l : List (Nat × β)}
    (hq : q ∈ mapInsert k v l) : q = (k, v) ∨ q ∈ l := by
  induction l with
  | nil => simpa [mapInsert] using hq
  | cons p t ih =>
    by_cases h1 : k < p.1
    · simpa [mapInsert, h1] using hq
    · by_cases h2 : k = p.1
      · simp only [mapInsert, if_neg h1, if_pos h2] at hq
        exact Or.inr hq
      · simp only [mapInsert, if_neg h1, if_neg h2, List.mem_cons] at hq ⊢
        rcases hq with hq | hq
        · exact Or.inr (Or.inl hq)
        · rcases ih hq with hq | hq
          · exact Or.inl hq
          · exact Or.inr (Or.inr hq)

theorem mem_keys_enqueueTask {τ : Type} {k x : Nat} {t : τ} {l : List (Nat × List τ)}
    (hx : x ∈ keys (enqueueTask k t l)) : x = k ∨ x ∈ keys l := by
  induction l with
  | nil => simpa [enqueueTask, keys] using hx
  | cons p r ih =>
    by_cases h1 : k < p.1
    · simpa [enqueueTask, keys, h1] using hx
    · by_cases h2 : k = p.1
      · simp only [enqueueTask, if_neg h1, if_pos h2, keys, List.map_cons,
          List.mem_cons] at hx ⊢
        rcases hx with hx | hx
        · exact Or.inr (Or.inl hx)
        · exact Or.inr (Or.inr hx)
      · simp only [enqueueTask, if_neg h1, if_neg h2, keys, List.map_cons,
          List.mem_cons] at hx ⊢
        rcases hx with hx | hx
        · exact Or.inr (Or.inl hx)
        · rcases ih hx with hx | hx
          · exact Or.inl hx
          · exact Or.inr (Or.inr hx)

theorem keysSorted_enqueueTask {τ : Type} {k : Nat} {t : τ} {l : List (Nat × List τ)}
    (h : KeysSorted l) : KeysSorted (enqueueTask k t l) := by
  induction l with
  | nil => simp [KeysSorted, enqueueTask, keys]
  | cons p r ih =>
    simp only [KeysSorted, keys, List.map_cons, List.pairwise_cons] at h
    obtain ⟨hp, hr⟩ := h
    by_cases h1 : k < p.1
    · simp only [KeysSorted, enqueueTask, if_pos h1, keys, List.map_cons,
        List.pairwise_cons]
      refine ⟨?_, hp, hr⟩
      intro x hx
      rcases List.mem_cons.mp hx with rfl | hx
      · exact h1
      · exact lt_trans h1 (hp x hx)
    · by_cases h2 : k = p.1
      · simp only [KeysSorted, enqueueTask, if_neg h1, if_pos h2, keys,
          List.map_cons, List.pairwise_cons]
        exact ⟨hp, hr⟩
      · have hlt : p.1 < k := by omega
        simp only [KeysSorted, enqueueTask, if_neg h1, if_neg h2, keys,
          List.map_cons, List.pairwise_cons]
        refine ⟨?_, ih hr⟩
        intro x hx
        rcases mem_keys_enqueueTask hx with rfl | hx
        · exact hlt
        · exact hp x hx

theorem enqueueTask_allP {τ : Type} {P : τ → Prop} {k : Nat} {t : τ}
    {l : List (Nat × List τ)}
    (hl : ∀ q ∈ l, ∀ x ∈ q.2, P x) (ht : P t) :
    ∀ q ∈ enqueueTask k t l, ∀ x ∈ q.2, P x := by
  induction l with
  | nil =>
    intro q hq x hx
    simp only [enqueueTask, List.mem_singleton] at hq
    subst hq
    simp only [List.mem_singleton] at hx
    subst hx
    exact ht
  | cons p r ih =>
    intro q hq x hx
    by_cases h1 : k < p.1
    · simp only [enqueueTask, if_pos h1, List.mem_cons] at hq
      rcases hq with rfl | hq
      · simp only [List.mem_singleton] at hx
        subst hx
        exact ht
      · exact hl q (by simpa using hq) x hx
    · by_cases h2 : k = p.1
      · simp only [enqueueTask, if_neg h1, if_pos h2, List.mem_cons] at hq
        rcases hq with rfl | hq
        · simp only [List.mem_append, List.mem_singleton] at hx
          rcases hx with hx | rfl
          · exact hl p (List.mem_cons_self p r) x hx
          · exact ht
        · exact hl q (List.mem_cons_of_mem p hq) x hx
      · simp only [enqueueTask, if_neg h1, if_neg h2, List.mem_cons] at hq
        rcases hq with rfl | hq
        · exact hl q (List.mem_cons_self q r) x hx
        · exact ih (fun q' hq' => hl q' (List.mem_cons_of_mem p hq')) q hq x hx

theorem keysSorted_foldl_enqueue {F A : Type} (arg : A) (slots : List (Nat × F)) :
    ∀ qs : List (Nat × List (StrandTask F A)), KeysSorted qs →
    KeysSorted (slots.foldl (fun qs p => enqueueTask p.1 (some (p.2, arg)) qs) qs) := by
  induction slots with
  | nil => intro qs h; simpa using h
  | cons p t ih =>
    intro qs h
    simpa using ih (enqueueTask p.1 (some (p.2, arg)) qs) (keysSorted_enqueueTask h)

theorem allSome_foldl_enqueue {F A : Type} (arg : A) (slots : List (Nat × F)) :
    ∀ qs : List (Nat × List (StrandTask F A)),
    (∀ q ∈ qs, ∀ x ∈ q.2, Option.isSome x) →
    (∀ q ∈ slots.foldl (fun qs p => enqueueTask p.1 (some (p.2, arg)) qs) qs,
      ∀ x ∈ q.2, Option.isSome x) := by
  induction slots with
  | nil => intro qs h; simpa using h
  | cons p t ih =>
    intro qs h
    simpa using ih (enqueueTask p.1 (some (p.2, arg)) qs)
      (enqueueTask_allP h (by simp))

theorem regSorted_connect {F A : Type} {s : SignalState F A}
    (scheme : Nat) (f : F) (ps : PoolState) (h : RegSorted s) :
    RegSorted (connectSlot scheme f s ps).2.1 := by
  obtain ⟨h1, h2, h3, h4, h5, h6⟩ := h
  by_cases hs : scheme = STRAND
  · cases hc : getSlotMap scheme <;>
      simp only [connectSlot, RegSorted, hc, insertReg, if_pos hs] <;>
      exact ⟨by first | exact keysSorted_mapInsert h1 | exact h1,
             by first | exact keysSorted_mapInsert h2 | exact h2,
             by first | exact keysSorted_mapInsert h3 | exact h3,
             by first | exact keysSorted_mapInsert h4 | exact h4,
             keysSorted_mapInsert h5, pairwise_setInsert h6⟩
  · cases hc : getSlotMap scheme <;>
      simp only [connectSlot, RegSorted, hc, insertReg, if_neg hs] <;>
      exact ⟨by first | exact keysSorted_mapInsert h1 | exact h1,
             by first | exact keysSorted_mapInsert h2 | exact h2,
             by first | exact keysSorted_mapInsert h3 | exact h3,
             by first | exact keysSorted_mapInsert h4 | exact h4,
             h5, h6⟩

theorem regSorted_disconnect {F A : Type} [DecidableEq F] [DecidableEq A]
    {s : SignalState F A} (id : Nat) (h : RegSorted s) :
    RegSorted (disconnectSlot id s).2 := by
  obtain ⟨h1, h2, h3, h4, h5, h6⟩ := h
  rcases hfind : findSlotMapWithId id s with _ | c
  · simpa [disconnectSlot, hfind] using ⟨h1, h2, h3, h4, h5, h6⟩
  · cases c <;>
      simp only [disconnectSlot, hfind, RegSorted, eraseReg] <;>
      exact ⟨by first | exact keysSorted_mapErase h1 | exact h1,
             by first | exact keysSorted_mapErase h2 | exact h2,
             by first | exact keysSorted_mapErase h3 | exact h3,
             by first | exact keysSorted_mapErase h4 | exact h4,
             by first | exact keysSorted_mapErase h5 | exact h5,
             by first | exact pairwise_setErase h6 | exact h6⟩

theorem regSorted_emit {F A : Type} {s : SignalState F A} (arg : A)
    (h : RegSorted s) : RegSorted (emitSignal s arg).2 := by
  obtain ⟨h1, h2, h3, h4, h5, h6⟩ := h
  have hq := keysSorted_foldl_enqueue arg s.strandSlots s.strandQueues h5
  unfold emitSignal emitSignalThreadSafe emitSignalUnsafe
  by_cases hg : s.enableEmissionGuard <;>
    simp only [hg, if_true, if_false, ite_true, ite_false] <;>
    exact ⟨h1, h2, h3, h4, hq, h6⟩

theorem regSorted_disconnectAll {F A : Type} {s : SignalState F A} :
    RegSorted (disconnectAllSlots s).2 := by
  simp [disconnectAllSlots, RegSorted, KeysSorted, keys]

theorem reachable_regSorted {F A : Type} [DecidableEq F] [DecidableEq A]
    {s : SignalState F A} (h : Reachable s) : RegSorted s := by
  induction h with
  | init g cap => simp [SignalState.init, RegSorted, KeysSorted, keys]
  | connect scheme f ps _ ih => exact regSorted_connect scheme f ps ih
  | disconnect id _ ih => exact regSorted_disconnect id ih
  | emit arg _ ih => exact regSorted_emit arg ih
  | disconnectAll _ ih => exact regSorted_disconnectAll

theorem allSome_connect {F A : Type} {s : SignalState F A}
    (scheme : Nat) (f : F) (ps : PoolState) (h : AllSomeQueues s) :
    AllSomeQueues (connectSlot scheme f s ps).2.1 := by
  by_cases hs : scheme = STRAND
  · cases hc : getSlotMap scheme <;>
      simp only [connectSlot, AllSomeQueues, hc, insertReg, if_pos hs] <;>
      · intro q hq x hx
        rcases mem_mapInsert hq with rfl | hq
        · simp at hx
        · exact h q hq x hx
  · cases hc : getSlotMap scheme <;>
      simp only [connectSlot, AllSomeQueues, hc, insertReg, if_neg hs] <;>
      exact h

theorem mem_of_mem_mapErase {β : Type} {k : Nat} {q : Nat × β} {l : List (Nat × β)}
    (hq : q ∈ mapErase k l) : q ∈ l :=
  (mapErase_sublist k l).subset hq

theorem allSome_disconnect {F A : Type} [DecidableEq F] [DecidableEq A]
    {s : SignalState F A} (id : Nat) (h : AllSomeQueues s) :
    AllSomeQueues (disconnectSlot id s).2 := by
  rcases hfind : findSlotMapWithId id s with _ | c
  · simpa [disconnectSlot, hfind] using h
  · cases c <;> simp only [disconnectSlot, hfind, AllSomeQueues, eraseReg]
    · exact h
    · exact h
    · exact fun q hq => h q (mem_of_mem_mapErase hq)
    · exact h

theorem allSome_emit {F A : Type} {s : SignalState F A} (arg : A)
    (h : AllSomeQueues s) : AllSomeQueues (emitSignal s arg).2 := by
  have hq := allSome_foldl_enqueue arg s.strandSlots s.strandQueues h
  unfold emitSignal emitSignalThreadSafe emitSignalUnsafe
  by_cases hg : s.enableEmissionGuard <;>
    simp only [hg, ite_true, ite_false] <;> exact hq

theorem reachable_allSome {F A : Type} [DecidableEq F] [DecidableEq A]
    {s : SignalState F A} (h : Reachable s) : AllSomeQueues s := by
  induction h with
  | init g cap => simp [SignalState.init, AllSomeQueues]
  | connect scheme f ps _ ih => exact allSome_connect scheme f ps ih
  | disconnect id _ ih => exact allSome_disconnect id ih
  | emit arg _ ih => exact allSome_emit arg ih
  | disconnectAll _ ih => simp [disconnectAllSlots, AllSomeQueues]

theorem connect_fst {F A : Type} (scheme : Nat) (f : F) (s : SignalState F A)
    (ps : PoolState) : (connectSlot scheme f s ps).1 = s.currentId := rfl

theorem insertReg_currentId {F A : Type} (c : RegChoice) (id : Nat) (f : F)
    (s : SignalState F A) : (insertReg c id f s).currentId = s.currentId := by
  cases c <;> rfl

theorem connect_currentId {F A : Type} (scheme : Nat) (f : F) (s : SignalState F A)
    (ps : PoolState) :
    (connectSlot scheme f s ps).2.1.currentId = (s.currentId + 1) % uint32Mod := by
  by_cases hs : scheme = STRAND <;>
    simp [connectSlot, hs, insertReg_currentId]

theorem disconnect_currentId {F A : Type} [DecidableEq F] [DecidableEq A]
    (id : Nat) (s : SignalState F A) :
    (disconnectSlot id s).2.currentId = s.currentId := by
  rcases hfind : findSlotMapWithId id s with _ | c
  · simp [disconnectSlot, hfind]
  · cases c <;> simp [disconnectSlot, hfind, eraseReg]

theorem emit_currentId {F A : Type} (s : SignalState F A) (arg : A) :
    (emitSignal s arg).2.currentId = s.currentId := by
  unfold emitSignal emitSignalThreadSafe emitSignalUnsafe
  by_cases hg : s.enableEmissionGuard <;> simp [hg]

theorem disconnectAll_currentId {F A : Type} (s : SignalState F A) :
    (disconnectAllSlots s).2.currentId = s.currentId := rfl

theorem uint32Mod_pos : 0 < uint32Mod := by norm_num [uint32Mod]

/-- The id returned by the i-th `connect` in an operation sequence is the
start counter plus the number of earlier connects, reduced modulo 2^32, and
the counter advances by the total number of connects (modulo 2^32) — the
`uint32_t` `fetch_add` wraps. -/
theorem applyOps_ids {F A : Type} [DecidableEq F] [DecidableEq A]
    (ops : List (SigOp F A)) :
    ∀ (s : SignalState F A) (ps : PoolState), s.currentId < uint32Mod →
      (applyOps ops s ps).2.2
        = (List.range (connectCount ops)).map (fun i => (s.currentId + i) % uint32Mod)
      ∧ (applyOps ops s ps).1.currentId
        = (s.currentId + connectCount ops) % uint32Mod := by
  induction ops with
  | nil =>
    intro s ps hlt
    simp [applyOps, connectCount, Nat.mod_eq_of_lt hlt]
  | cons op rest ih =>
    intro s ps hlt
    cases op with
    | connect scheme f =>
      have hcur := connect_currentId scheme f s ps
      have hlt' : (connectSlot scheme f s ps).2.1.currentId < uint32Mod := by
        rw [hcur]; exact Nat.mod_lt _ uint32Mod_pos
      obtain ⟨hids, hc⟩ := ih (connectSlot scheme f s ps).2.1 (connectSlot scheme f s ps).2.2 hlt'
      constructor
      · simp only [applyOps, hids, hcur, connect_fst, connectCount]
        rw [List.range_succ_eq_map]
        simp only [List.map_cons, List.map_map]
        congr 1
        · rw [Nat.add_zero]
          exact (Nat.mod_eq_of_lt hlt).symm
        · apply List.map_congr_left
          intro i _
          simp only [Function.comp_apply]
          rw [Nat.mod_add_mod]
          congr 1
          omega
      · simp only [applyOps, hc, hcur, connectCount]
        rw [Nat.mod_add_mod]
        congr 1
        omega
    | disconnect id =>
      have h := ih (disconnectSlot id s).2 ps (by rw [disconnect_currentId]; exact hlt)
      simpa [applyOps, connectCount, disconnect_currentId] using h
    | emit arg =>
      have h := ih (emitSignal s arg).2 ps (by rw [emit_currentId]; exact hlt)
      simpa [applyOps, connectCount, emit_currentId] using h
    | disconnectAll =>
      have h := ih (disconnectAllSlots s).2 ps (by rw [disconnectAll_currentId]; exact hlt)
      simpa [applyOps, connectCount, disconnectAll_currentId] using h

theorem connectCount_replicate_connect {F A : Type} (n : Nat) (scheme : Nat) (f : F) :
    @connectCount F A (List.replicate n (SigOp.connect scheme f)) = n := by
  induction n with
  | zero => rfl
  | succ n ih => simp [List.replicate_succ, connectCount, ih]

/-- A sequence of 2^32 + 1 `connect` calls on a fresh default-constructed
engine (all synchronous, with the callback modelled as `0 : Nat`). -/
def wrapOps : List (SigOp Nat Nat) :=
  List.replicate (uint32Mod + 1) (SigOp.connect SYNCHRONOUS 0)

/-- The ids returned by those 2^32 + 1 connect calls, in call order. -/
def wrapIds : List Nat :=
  (applyOps wrapOps (SignalState.init Nat Nat false 1024) PoolState.init).2.2

theorem containsKey_iff {β : Type} {k : Nat} {l : List (Nat × β)} :
    containsKey k l = true ↔ k ∈ keys l := by
  induction l with
  | nil => simp [containsKey, keys]
  | cons p t ih =>
    simp only [containsKey, keys, List.map_cons, List.mem_cons, Bool.or_eq_true,
      beq_iff_eq] at ih ⊢
    rw [ih]
    constructor
    · rintro (rfl | h)
      · exact Or.inl rfl
      · exact Or.inr h
    · rintro (rfl | h)
      · exact Or.inl rfl
      · exact Or.inr h

theorem containsKey_mapErase_self {β : Type} {k : Nat} {l : List (Nat × β)}
    (h : List.Pairwise (· < ·) (keys l)) :
    containsKey k (mapErase k l) = false := by
  induction l with
  | nil => rfl
  | cons p t ih =>
    simp only [keys, List.map_cons, List.pairwise_cons] at h
    obtain ⟨hp, ht⟩ := h
    by_cases he : p.1 = k
    · simp only [mapErase, if_pos he]
      subst he
      rw [Bool.eq_false_iff]
      intro hc
      exact absurd (hp _ (containsKey_iff.mp hc)) (lt_irrefl p.1)
    · have hbeq : (p.1 == k) = false := by simpa using he
      simp [mapErase, if_neg he, containsKey, hbeq, ih ht]

/-- Key-disjointness of the four registries ("a slot appears in exactly one
registry at a time"); phrased over the stored keys so it is decidable. -/
def RegDisjoint {F A : Type} (s : SignalState F A) : Prop :=
  (∀ id ∈ keys s.synchronousSlots,
    containsKey id s.asynchronousSlots = false ∧
    containsKey id s.strandSlots = false ∧
    containsKey id s.threadPooledSlots = false) ∧
  (∀ id ∈ keys s.asynchronousSlots,
    containsKey id s.strandSlots = false ∧
    containsKey id s.threadPooledSlots = false) ∧
  (∀ id ∈ keys s.strandSlots,
    containsKey id s.threadPooledSlots = false)

instance {β : Type} (l : List (Nat × β)) : Decidable (KeysSorted l) := by
  unfold KeysSorted
  infer_instance

instance {F A : Type} (s : SignalState F A) : Decidable (RegSorted s) := by
  unfold RegSorted
  infer_instance

instance {F A : Type} (s : SignalState F A) : Decidable (RegDisjoint s) := by
  unfold RegDisjoint
  infer_instance

/-- C7: for an id held in no registry, `findSlotMapWithId` answers `nullptr`
and `disconnectSlot` returns at line 123 with no action and no state change;
consequently, in a state whose registries are well-sorted and key-disjoint
(the engine invariants), a second `disconnectSlot` on the same id is such a
no-op. -/
theorem C7_unknown_disconnect_noop {F A : Type} [DecidableEq F] [DecidableEq A] :
    (∀ (s : SignalState F A) (id : Nat),
      containsKey id s.synchronousSlots = false →
      containsKey id s.asynchronousSlots = false →
      containsKey id s.strandSlots = false →
      containsKey id s.threadPooledSlots = false →
      disconnectSlot id s = ([], s)) ∧
    (∀ (s : SignalState F A) (id : Nat), RegSorted s → RegDisjoint s →
      disconnectSlot id (disconnectSlot id s).2 = ([], (disconnectSlot id s).2)) := by
  have noop : ∀ (s : SignalState F A) (id : Nat),
      containsKey id s.synchronousSlots = false →
      containsKey id s.asynchronousSlots = false →
      containsKey id s.strandSlots = false →
      containsKey id s.threadPooledSlots = false →
      disconnectSlot id s = ([], s) := by
    intro s id h1 h2 h3 h4
    simp [disconnectSlot, findSlotMapWithId, h1, h2, h3, h4]
  refine ⟨noop, ?_⟩
  intro s id hsorted hdisj
  obtain ⟨hs1, hs2, hs3, hs4, _, _⟩ := hsorted
  obtain ⟨hd1, hd2, hd3⟩ := hdisj
  rcases hfind : findSlotMapWithId id s with _ | c
  · have hnone := hfind
    unfold findSlotMapWithId at hnone
    split_ifs at hnone with h1 h2 h3 h4
    have hstate : (disconnectSlot id s).2 = s := by simp [disconnectSlot, hfind]
    rw [hstate]
    exact noop s id (Bool.eq_false_iff.mpr h1) (Bool.eq_false_iff.mpr h2)
      (Bool.eq_false_iff.mpr h3) (Bool.eq_false_iff.mpr h4)
  · have hcases := hfind
    unfold findSlotMapWithId at hcases
    split_ifs at hcases with h1 h2 h3 h4
    · obtain rfl : RegChoice.sync = c := Option.some.inj hcases
      obtain ⟨h2, h3, h4⟩ := hd1 id (containsKey_iff.mp h1)
      simp only [disconnectSlot, hfind, eraseReg]
      exact noop _ id (containsKey_mapErase_self hs1) h2 h3 h4
    · obtain rfl : RegChoice.async = c := Option.some.inj hcases
      obtain ⟨h3, h4⟩ := hd2 id (containsKey_iff.mp h2)
      simp only [disconnectSlot, hfind, eraseReg]
      exact noop _ id (Bool.eq_false_iff.mpr h1) (containsKey_mapErase_self hs2) h3 h4
    · obtain rfl : RegChoice.strand = c := Option.some.inj hcases
      have h4 := hd3 id (containsKey_iff.mp h3)
      simp only [disconnectSlot, hfind]
      exact noop _ id (Bool.eq_false_iff.mpr h1) (Bool.eq_false_iff.mpr h2)
        (containsKey_mapErase_self hs3) h4
    · obtain rfl : RegChoice.pooled = c := Option.some.inj hcases
      simp only [disconnectSlot, hfind, eraseReg]
      exact noop _ id (Bool.eq_false_iff.mpr h1) (Bool.eq_false_iff.mpr h2)
        (Bool.eq_false_iff.mpr h3) (containsKey_mapErase_self hs4)

/-- A concrete engine state holding one synchronous slot with id 0 (callback
modelled as `7 : Nat`), as left by one synchronous connect. -/
def c7State : SignalState Nat Nat :=
  { currentId := 1
    enableEmissionGuard := false
    sem := 1024
    synchronousSlots := [(0, 7)]
    asynchronousSlots := []
    strandSlots := []
    threadPooledSlots := []
    strandQueues := []
    strandThreads := [] }

/-- C7 witness: both parts applied at `c7State` — disconnecting the unknown
id 5 is a no-op, and disconnecting id 0 twice equals disconnecting it once. -/
theorem C7_unknown_disconnect_noop_witness :
    (containsKey 5 c7State.synchronousSlots = false ∧
      disconnectSlot 5 c7State = ([], c7State)) ∧
    (RegSorted c7State ∧ RegDisjoint c7State ∧
      disconnectSlot 0 (disconnectSlot 0 c7State).2 =
        ([], (disconnectSlot 0 c7State).2)) :=
  ⟨⟨by decide,
    C7_unknown_disconnect_noop.1 c7State 5 (by decide) (by decide) (by decide) (by decide)⟩,
   by decide,
   by decide,
   C7_unknown_disconnect_noop.2 c7State 0 (by decide) (by decide)⟩

/-- C2 counterexample: the id counter is a `uint32_t` and `fetch_add` wraps
modulo 2^32, so on a sequence of 2^32 + 1 connect calls the first and the
last call (two distinct calls) both return id 0 — the returned ids are not
pairwise distinct and not strictly increasing, and the first id has been
reused. -/
theorem C2_wrap_counterexample :
    wrapIds[0]? = some 0 ∧ wrapIds[uint32Mod]? = some 0 ∧ 0 < uint32Mod := by
  have hinit : (SignalState.init Nat Nat false 1024).currentId = 0 := rfl
  have h := (applyOps_ids wrapOps (SignalState.init Nat Nat false 1024) PoolState.init
    (by rw [hinit]; exact uint32Mod_pos)).1
  rw [hinit] at h
  have hcc : connectCount wrapOps = uint32Mod + 1 :=
    connectCount_replicate_connect (uint32Mod + 1) SYNCHRONOUS 0
  rw [hcc] at h
  have hids : wrapIds = (List.range (uint32Mod + 1)).map (fun i => (0 + i) % uint32Mod) := h
  refine ⟨?_, ?_, uint32Mod_pos⟩
  · rw [hids, List.getElem?_map, List.getElem?_range (Nat.succ_pos uint32Mod)]
    simp
  · rw [hids, List.getElem?_map, List.getElem?_range (Nat.lt_succ_self uint32Mod)]
    simp

/-- C2 amended: on a fresh engine, for any sequence of operations containing
at most 2^32 connect calls (so the 32-bit id counter has not wrapped), the
ids returned by the connect calls are strictly increasing in call order —
hence pairwise distinct and never reused after a disconnect — regardless of
the scheme of each call and of interleaved disconnect/emit/disconnectAll
calls. -/
theorem C2_connect_ids_strictly_increasing {F A : Type} [DecidableEq F] [DecidableEq A]
    (ops : List (SigOp F A)) (guard : Bool) (cap : Int) (ps : PoolState)
    (hcount : connectCount ops ≤ uint32Mod) (i j a b : Nat) (hij : i < j)
    (ha : (applyOps ops (SignalState.init F A guard cap) ps).2.2[i]? = some a)
    (hb : (applyOps ops (SignalState.init F A guard cap) ps).2.2[j]? = some b) :
    a < b := by
  have hinit : (SignalState.init F A guard cap).currentId = 0 := rfl
  have h := (applyOps_ids ops (SignalState.init F A guard cap) ps
    (by rw [hinit]; exact uint32Mod_pos)).1
  rw [hinit] at h
  rw [h] at ha hb
  have hj : j < connectCount ops := by
    have := (List.getElem?_eq_some.mp hb).1
    simpa using this
  have hi : i < connectCount ops := lt_trans hij hj
  rw [List.getElem?_map, List.getElem?_range hi] at ha
  rw [List.getElem?_map, List.getElem?_range hj] at hb
  simp at ha hb
  rw [← ha, ← hb]
  have hiu : i < uint32Mod := lt_of_lt_of_le hi hcount
  have hju : j < uint32Mod := lt_of_lt_of_le hj hcount
  simpa [Nat.mod_eq_of_lt hiu, Nat.mod_eq_of_lt hju] using hij

/-- A short concrete operation sequence: three connects with three different
schemes and an interleaved disconnect. -/
def c2Ops : List (SigOp Nat Nat) :=
  [SigOp.connect SYNCHRONOUS 7, SigOp.connect ASYNCHRONOUS 8,
   SigOp.disconnect 0, SigOp.connect THREAD_POOLED 9]

/-- C2 witness: the amended theorem applied to `c2Ops` at positions 0 and 2
(ids 0 and 2). -/
theorem C2_connect_ids_strictly_increasing_witness :
    connectCount c2Ops ≤ uint32Mod ∧ (0 : Nat) < 2 ∧
    (applyOps c2Ops (SignalState.init Nat Nat false 1024) PoolState.init).2.2[0]? = some 0 ∧
    (applyOps c2Ops (SignalState.init Nat Nat false 1024) PoolState.init).2.2[2]? = some 2 ∧
    (0 : Nat) < 2 :=
  ⟨by decide, by decide, by decide, by decide,
   C2_connect_ids_strictly_increasing c2Ops false 1024 PoolState.init
     (by decide) 0 2 0 2 (by decide) (by decide) (by decide)⟩

theorem keys_cons {β : Type} (p : Nat × β) (t : List (Nat × β)) :
    keys (p :: t) = p.1 :: keys t := rfl

theorem self_mem_mapInsert {β : Type} {k : Nat} {v : β} :
    ∀ {l : List (Nat × β)}, (∀ x ∈ keys l, x < k) → (k, v) ∈ mapInsert k v l := by
  intro l
  induction l with
  | nil => intro _; simp [mapInsert]
  | cons p t ih =>
    intro h
    have hp : p.1 < k := h p.1 (by rw [keys_cons]; exact List.mem_cons_self p.1 (keys t))
    have hn1 : ¬(k < p.1) := by omega
    have hn2 : ¬(k = p.1) := by omega
    simp only [mapInsert, if_neg hn1, if_neg hn2, List.mem_cons]
    refine Or.inr (ih ?_)
    intro x hx
    exact h x (by rw [keys_cons]; exact List.mem_cons_of_mem p.1 hx)

theorem syncInvoke_mem_syncPart {F A : Type} {id : Nat} {f : F} (arg : A) :
    ∀ {l : List (Nat × F)}, (id, f) ∈ l → Event.syncInvoke id f arg ∈ syncPart arg l := by
  intro l
  induction l with
  | nil => intro h; simp at h
  | cons p t ih =>
    intro h
    rcases List.mem_cons.mp h with hp | hp
    · rw [← hp]
      exact List.mem_cons_self _ _
    · exact List.mem_cons_of_mem _ (ih hp)

/-- C9: `getSlotMap`'s `switch` sends any scheme value other than the three
enumerators ASYNCHRONOUS, STRAND and THREAD_POOLED to the `default:`/
`case SYNCHRONOUS:` branch, so `connectSlot` with a scheme value outside the
four named values behaves exactly like a Synchronous connect: the state and
pool transitions coincide with those of a SYNCHRONOUS connect, the callback
is stored in the synchronous registry, and (when the allocated id is fresh
for that registry) a subsequent emit invokes it synchronously. -/
theorem C9_unknown_scheme_is_synchronous {F A : Type} (scheme : Nat) (f : F)
    (s : SignalState F A) (ps : PoolState) (arg : A)
    (_h0 : scheme ≠ SYNCHRONOUS) (h1 : scheme ≠ ASYNCHRONOUS)
    (h2 : scheme ≠ STRAND) (h3 : scheme ≠ THREAD_POOLED) :
    connectSlot scheme f s ps = connectSlot SYNCHRONOUS f s ps ∧
    (connectSlot scheme f s ps).2.1.synchronousSlots
      = mapInsert s.currentId f s.synchronousSlots ∧
    ((∀ k ∈ keys s.synchronousSlots, k < s.currentId) →
      Event.syncInvoke s.currentId f arg
        ∈ (emitSignal (connectSlot scheme f s ps).2.1 arg).1) := by
  have hmap : getSlotMap scheme = RegChoice.sync := by
    simp [getSlotMap, h1, h2, h3]
  have hmap0 : getSlotMap SYNCHRONOUS = RegChoice.sync := by decide
  have heq : connectSlot scheme f s ps = connectSlot SYNCHRONOUS f s ps := by
    unfold connectSlot connectPoolEffect
    rw [hmap, hmap0]
    simp only [h2, h3, if_false, ite_false]
    have e2 : ¬(SYNCHRONOUS = STRAND) := by decide
    have e3 : ¬(SYNCHRONOUS = THREAD_POOLED) := by decide
    simp [e2, e3]
  have hsync : (connectSlot scheme f s ps).2.1.synchronousSlots
      = mapInsert s.currentId f s.synchronousSlots := by
    rw [heq]
    unfold connectSlot
    rw [hmap0]
    have e2 : ¬(SYNCHRONOUS = STRAND) := by decide
    simp [e2, insertReg]
  refine ⟨heq, hsync, ?_⟩
  intro hfresh
  have hmem : (s.currentId, f) ∈ (connectSlot scheme f s ps).2.1.synchronousSlots := by
    rw [hsync]
    exact self_mem_mapInsert hfresh
  have hev := syncInvoke_mem_syncPart arg hmem
  unfold emitSignal emitSignalThreadSafe emitSignalUnsafe
  by_cases hg : (connectSlot scheme f s ps).2.1.enableEmissionGuard <;>
    simp only [hg, ite_true, ite_false] <;>
    exact List.mem_append_left _ (List.mem_append_left _ (List.mem_append_left _ hev))

/-- C9 witness: scheme value 7 (outside the enum) on `c7State` behaves as a
Synchronous connect, and id 1 is then invoked synchronously on emit. -/
theorem C9_unknown_scheme_is_synchronous_witness :
    ((7 : Nat) ≠ SYNCHRONOUS ∧ (7 : Nat) ≠ ASYNCHRONOUS ∧ (7 : Nat) ≠ STRAND ∧
      (7 : Nat) ≠ THREAD_POOLED ∧ (∀ k ∈ keys c7State.synchronousSlots, k < c7State.currentId)) ∧
    (connectSlot 7 (9 : Nat) c7State PoolState.init
        = connectSlot SYNCHRONOUS 9 c7State PoolState.init ∧
      (connectSlot 7 (9 : Nat) c7State PoolState.init).2.1.synchronousSlots
        = mapInsert c7State.currentId 9 c7State.synchronousSlots ∧
      ((∀ k ∈ keys c7State.synchronousSlots, k < c7State.currentId) →
        Event.syncInvoke c7State.currentId 9 (5 : Nat)
          ∈ (emitSignal (connectSlot 7 (9 : Nat) c7State PoolState.init).2.1 5).1)) :=
  ⟨⟨by decide, by decide, by decide, by decide, by decide⟩,
   C9_unknown_scheme_is_synchronous 7 9 c7State PoolState.init 5
     (by decide) (by decide) (by decide) (by decide)⟩

/-- C10: emission never adds or removes a registration — the four slot
registries, the strand thread map, the id counter (and the configuration
flag) are unchanged when emit returns, for both the guarded and the
unguarded emission paths; only the strand queues and the semaphore counter
are updated. -/
theorem C10_emit_frame {F A : Type} (s : SignalState F A) (arg : A) :
    (emitSignal s arg).2.synchronousSlots = s.synchronousSlots ∧
    (emitSignal s arg).2.asynchronousSlots = s.asynchronousSlots ∧
    (emitSignal s arg).2.strandSlots = s.strandSlots ∧
    (emitSignal s arg).2.threadPooledSlots = s.threadPooledSlots ∧
    (emitSignal s arg).2.strandThreads = s.strandThreads ∧
    (emitSignal s arg).2.currentId = s.currentId ∧
    (emitSignal s arg).2.enableEmissionGuard = s.enableEmissionGuard := by
  unfold emitSignal emitSignalThreadSafe emitSignalUnsafe
  by_cases hg : s.enableEmissionGuard <;> simp [hg]

theorem mem_syncPart {F A : Type} {arg : A} {e : Event F A} :
    ∀ {l : List (Nat × F)}, e ∈ syncPart arg l →
      ∃ p ∈ l, e = Event.syncInvoke p.1 p.2 arg := by
  intro l
  induction l with
  | nil => intro h; simp [syncPart] at h
  | cons p t ih =>
    intro h
    rcases List.mem_cons.mp h with he | he
    · exact ⟨p, List.mem_cons_self p t, he⟩
    · obtain ⟨q, hq, he⟩ := ih he
      exact ⟨q, List.mem_cons_of_mem p hq, he⟩

theorem mem_asyncPart {F A : Type} {arg : A} {e : Event F A} :
    ∀ {l : List (Nat × F)}, e ∈ asyncPart arg l →
      e = Event.semAcquire ∨ ∃ p ∈ l, e = Event.spawnDetached p.1 p.2 arg := by
  intro l
  induction l with
  | nil => intro h; simp [asyncPart] at h
  | cons p t ih =>
    intro h
    rcases List.mem_cons.mp h with he | he
    · exact Or.inl he
    · rcases List.mem_cons.mp he with he | he
      · exact Or.inr ⟨p, List.mem_cons_self p t, he⟩
      · rcases ih he with he | ⟨q, hq, he⟩
        · exact Or.inl he
        · exact Or.inr ⟨q, List.mem_cons_of_mem p hq, he⟩

theorem mem_strandPart {F A : Type} {arg : A} {e : Event F A} :
    ∀ {l : List (Nat × F)}, e ∈ strandPart arg l →
      ∃ p ∈ l, e = Event.strandEnqueue p.1 p.2 arg := by
  intro l
  induction l with
  | nil => intro h; simp [strandPart] at h
  | cons p t ih =>
    intro h
    rcases List.mem_cons.mp h with he | he
    · exact ⟨p, List.mem_cons_self p t, he⟩
    · obtain ⟨q, hq, he⟩ := ih he
      exact ⟨q, List.mem_cons_of_mem p hq, he⟩

theorem mem_poolPart {F A : Type} {arg : A} {e : Event F A} :
    ∀ {l : List (Nat × F)}, e ∈ poolPart arg l →
      ∃ p ∈ l, e = Event.poolEnqueue p.1 p.2 arg := by
  intro l
  induction l with
  | nil => intro h; simp [poolPart] at h
  | cons p t ih =>
    intro h
    rcases List.mem_cons.mp h with he | he
    · exact ⟨p, List.mem_cons_self p t, he⟩
    · obtain ⟨q, hq, he⟩ := ih he
      exact ⟨q, List.mem_cons_of_mem p hq, he⟩

/-- The unguarded and guarded emissions produce the same trace: the four
blocks of `emitSignalUnsafe` in source order. -/
theorem emit_trace_eq {F A : Type} (s : SignalState F A) (arg : A) :
    (emitSignal s arg).1
      = syncPart arg s.synchronousSlots ++ asyncPart arg s.asynchronousSlots
        ++ strandPart arg s.strandSlots ++ poolPart arg s.threadPooledSlots := by
  unfold emitSignal emitSignalThreadSafe emitSignalUnsafe
  by_cases hg : s.enableEmissionGuard <;> simp [hg]

theorem count_syncPart_eq_zero {F A : Type} [DecidableEq F] [DecidableEq A]
    {id : Nat} {f : F} (arg : A) :
    ∀ {l : List (Nat × F)}, id ∉ keys l →
      (syncPart arg l).count (Event.syncInvoke id f arg) = 0 := by
  intro l
  induction l with
  | nil => intro _; rfl
  | cons p t ih =>
    intro h
    rw [keys_cons] at h
    have hne : Event.syncInvoke id f arg ≠ Event.syncInvoke p.1 p.2 arg := by
      intro he
      injection he with h1 _ _
      exact h (h1 ▸ List.mem_cons_self p.1 (keys t))
    have hcount := ih (fun hmem => h (List.mem_cons_of_mem p.1 hmem))
    simp [syncPart, List.count_cons, hcount, hne]

theorem count_syncPart_eq_one {F A : Type} [DecidableEq F] [DecidableEq A]
    {id : Nat} {f : F} (arg : A) :
    ∀ {l : List (Nat × F)}, List.Pairwise (· < ·) (keys l) → (id, f) ∈ l →
      (syncPart arg l).count (Event.syncInvoke id f arg) = 1 := by
  intro l
  induction l with
  | nil => intro _ h; simp at h
  | cons p t ih =>
    intro hs hm
    rw [keys_cons] at hs
    rw [List.pairwise_cons] at hs
    obtain ⟨hp, ht⟩ := hs
    rcases List.mem_cons.mp hm with he | he
    · have hid : p.1 = id := by rw [← he]
      have hninkeys : id ∉ keys t := by
        intro hk
        exact absurd (hp id hk) (by omega)
      have hzero : (syncPart arg t).count (Event.syncInvoke id f arg) = 0 :=
        count_syncPart_eq_zero arg hninkeys
      have hhead : Event.syncInvoke p.1 p.2 arg = Event.syncInvoke id f arg := by
        rw [← he]
      simp [syncPart, List.count_cons, hzero, hhead]
    · have hlt : p.1 < id := hp id (by
        have : id ∈ keys t := by
          rw [keys]
          exact List.mem_map_of_mem Prod.fst he
        exact this)
      have hne : Event.syncInvoke id f arg ≠ Event.syncInvoke p.1 p.2 arg := by
        intro hx
        injection hx with h1 _ _
        omega
      simp [syncPart, List.count_cons, ih ht he, hne]

theorem count_syncInvoke_rest_zero {F A : Type} [DecidableEq F] [DecidableEq A]
    {id : Nat} {f : F} {arg : A} (la ls lp : List (Nat × F)) :
    (asyncPart arg la).count (Event.syncInvoke id f arg) = 0 ∧
    (strandPart arg ls).count (Event.syncInvoke id f arg) = 0 ∧
    (poolPart arg lp).count (Event.syncInvoke id f arg) = 0 := by
  refine ⟨?_, ?_, ?_⟩
  · rw [List.count_eq_zero]
    intro hmem
    rcases mem_asyncPart hmem with h | ⟨q, _, h⟩ <;> simp at h
  · rw [List.count_eq_zero]
    intro hmem
    obtain ⟨q, _, h⟩ := mem_strandPart hmem
    simp at h
  · rw [List.count_eq_zero]
    intro hmem
    obtain ⟨q, _, h⟩ := mem_poolPart hmem
    simp at h

/-- The dispatch-order property of one emission: the trace is exactly the
synchronous block, then the asynchronous block, then the strand block, then
the pooled block; within each block the registry is walked in ascending-id
order; and every connected synchronous slot is invoked exactly once with the
emitted arguments. -/
def EmitDispatchOrdered {F A : Type} [DecidableEq F] [DecidableEq A]
    (s : SignalState F A) (arg : A) : Prop :=
  (emitSignal s arg).1
    = syncPart arg s.synchronousSlots ++ asyncPart arg s.asynchronousSlots
      ++ strandPart arg s.strandSlots ++ poolPart arg s.threadPooledSlots ∧
  List.Pairwise (· < ·) (keys s.synchronousSlots) ∧
  List.Pairwise (· < ·) (keys s.asynchronousSlots) ∧
  List.Pairwise (· < ·) (keys s.strandSlots) ∧
  List.Pairwise (· < ·) (keys s.threadPooledSlots) ∧
  ∀ p ∈ s.synchronousSlots,
    (emitSignal s arg).1.count (Event.syncInvoke p.1 p.2 arg) = 1

/-- C1: on every reachable state, `emitSignalUnsafe` dispatches over the four
registries in the fixed order Synchronous, Asynchronous, Strand, Pooled;
each registry is a `std::map` walked in ascending-id order; and every
connected Synchronous slot is invoked exactly once with the emitted
arguments (inline, hence before emit returns). -/
theorem C1_emit_dispatch_order {F A : Type} [DecidableEq F] [DecidableEq A]
    (s : SignalState F A) (hr : Reachable s) (arg : A) :
    EmitDispatchOrdered s arg := by
  obtain ⟨h1, h2, h3, h4, _, _⟩ := reachable_regSorted hr
  refine ⟨emit_trace_eq s arg, h1, h2, h3, h4, ?_⟩
  intro p hp
  obtain ⟨hza, hzs, hzp⟩ :=
    @count_syncInvoke_rest_zero F A _ _ p.1 p.2 arg
      s.asynchronousSlots s.strandSlots s.threadPooledSlots
  rw [emit_trace_eq s arg]
  rw [List.count_append, List.count_append, List.count_append]
  rw [count_syncPart_eq_one arg h1 (by simpa using hp), hza, hzs, hzp]

/-- A concrete reachable engine state with two synchronous slots, one
asynchronous slot and one strand slot (callbacks 10, 11, 12, 13). -/
def c1State : SignalState Nat Nat :=
  (connectSlot STRAND 13
    ((connectSlot ASYNCHRONOUS 12
      ((connectSlot SYNCHRONOUS 11
        ((connectSlot SYNCHRONOUS 10 (SignalState.init Nat Nat false 1024)
          PoolState.init).2.1) PoolState.init).2.1) PoolState.init).2.1)
    PoolState.init).2.1

/-- C1 witness: the dispatch-order theorem applied at `c1State` with
argument 5, the reachability hypothesis discharged by the explicit
construction. -/
theorem C1_emit_dispatch_order_witness :
    Reachable c1State ∧ EmitDispatchOrdered c1State 5 := by
  have hr : Reachable c1State :=
    Reachable.connect STRAND 13 PoolState.init
      (Reachable.connect ASYNCHRONOUS 12 PoolState.init
        (Reachable.connect SYNCHRONOUS 11 PoolState.init
          (Reachable.connect SYNCHRONOUS 10 PoolState.init
            (Reachable.init false 1024))))
  exact ⟨hr, C1_emit_dispatch_order c1State hr 5⟩

theorem emit_no_join {F A : Type} (s : SignalState F A) (arg : A) (id : Nat) :
    Event.joinStrand id ∉ (emitSignal s arg).1 := by
  rw [emit_trace_eq]
  intro hmem
  rcases List.mem_append.mp hmem with h | h
  · rcases List.mem_append.mp h with h | h
    · rcases List.mem_append.mp h with h | h
      · obtain ⟨q, _, h⟩ := mem_syncPart h
        simp at h
      · rcases mem_asyncPart h with h | ⟨q, _, h⟩ <;> simp at h
    · obtain ⟨q, _, h⟩ := mem_strandPart h
      simp at h
  · obtain ⟨q, _, h⟩ := mem_poolPart h
    simp at h

theorem emit_no_pushShutdown {F A : Type} (s : SignalState F A) (arg : A) (id : Nat) :
    Event.pushShutdown id ∉ (emitSignal s arg).1 := by
  rw [emit_trace_eq]
  intro hmem
  rcases List.mem_append.mp hmem with h | h
  · rcases List.mem_append.mp h with h | h
    · rcases List.mem_append.mp h with h | h
      · obtain ⟨q, _, h⟩ := mem_syncPart h
        simp at h
      · rcases mem_asyncPart h with h | ⟨q, _, h⟩ <;> simp at h
    · obtain ⟨q, _, h⟩ := mem_strandPart h
      simp at h
  · obtain ⟨q, _, h⟩ := mem_poolPart h
    simp at h

theorem asyncPart_decomp {F A : Type} (arg : A) :
    ∀ {l : List (Nat × F)} {p : Nat × F}, p ∈ l →
      ∃ pre post, asyncPart arg l
        = pre ++ Event.semAcquire :: Event.spawnDetached p.1 p.2 arg :: post := by
  intro l
  induction l with
  | nil => intro p h; simp at h
  | cons q t ih =>
    intro p h
    rcases List.mem_cons.mp h with hp | hp
    · cases hp
      exact ⟨[], asyncPart arg t, by simp [asyncPart]⟩
    · obtain ⟨pre, post, heq⟩ := ih hp
      exact ⟨Event.semAcquire :: Event.spawnDetached q.1 q.2 arg :: pre, post,
        by simp [asyncPart, heq]⟩

/-- The asynchronous dispatch contract of one emission: for every connected
asynchronous slot, `sem.acquire()` is performed on the emitting thread
immediately before the detached thread for that slot is spawned; the
detached thread's body invokes the slot and only then releases the
semaphore; the emitting thread never joins any thread during emission; and
emit's effect on the semaphore counter is one acquire per asynchronous
slot. -/
def AsyncDispatchSpec {F A : Type} (s : SignalState F A) (arg : A) : Prop :=
  (∀ p ∈ s.asynchronousSlots,
    ∃ pre post, (emitSignal s arg).1
      = pre ++ Event.semAcquire :: Event.spawnDetached p.1 p.2 arg :: post) ∧
  (∀ p : Nat × F, p ∈ s.asynchronousSlots →
    detachedThreadBody p.2 arg
      = [ThreadEvent.invoke p.2 arg, ThreadEvent.semRelease]) ∧
  (∀ id : Nat, Event.joinStrand id ∉ (emitSignal s arg).1) ∧
  (emitSignal s arg).2.sem = s.sem - s.asynchronousSlots.length

/-- C5: every asynchronous slot dispatched by emit first costs a
`sem.acquire()` on the emitting thread, then a detached thread is spawned
whose body runs the slot with the emitted arguments and calls
`sem.release()` after it returns; emission performs no join (`detach()` is
called and the handle is dropped — no join event exists for these threads
anywhere in the model). -/
theorem C5_async_dispatch {F A : Type} (s : SignalState F A) (arg : A) :
    AsyncDispatchSpec s arg := by
  refine ⟨?_, ?_, emit_no_join s arg, ?_⟩
  · intro p hp
    obtain ⟨pre, post, heq⟩ := asyncPart_decomp arg hp
    refine ⟨syncPart arg s.synchronousSlots ++ pre,
      post ++ strandPart arg s.strandSlots ++ poolPart arg s.threadPooledSlots, ?_⟩
    rw [emit_trace_eq, heq]
    simp [List.append_assoc]
  · intro p _
    rfl
  · unfold emitSignal emitSignalThreadSafe emitSignalUnsafe
    by_cases hg : s.enableEmissionGuard <;> simp [hg]

/-- C5 witness: the asynchronous dispatch contract at `c1State` (which holds
one asynchronous slot, id 2) with argument 5. -/
theorem C5_async_dispatch_witness : AsyncDispatchSpec c1State 5 :=
  C5_async_dispatch c1State 5

/-- The shutdown-sentinel discipline at a state: no strand queue holds the
shutdown sentinel; emission keeps it that way (everything emit enqueues is a
non-empty callable); and the emit trace never pushes the shutdown
sentinel — only `disconnectSlot`/`disconnectAllSlots` produce
`pushShutdown` events. -/
def ShutdownSentinelSpec {F A : Type} (s : SignalState F A) : Prop :=
  AllSomeQueues s ∧
  (∀ arg : A, AllSomeQueues (emitSignal s arg).2) ∧
  (∀ (arg : A) (id : Nat), Event.pushShutdown id ∉ (emitSignal s arg).1)

/-- C6: in every reachable state, strand queues contain only non-empty
callables — the `nullptr` shutdown sentinel can only enter a queue through
`disconnectSlot`/`disconnectAllSlots` (whose handshake immediately consumes
and destroys the queue), never through emission, so the worker never
mistakes a legitimate task for the shutdown message. -/
theorem C6_shutdown_sentinel {F A : Type} [DecidableEq F] [DecidableEq A]
    (s : SignalState F A) (hr : Reachable s) : ShutdownSentinelSpec s :=
  ⟨reachable_allSome hr,
   fun arg => allSome_emit arg (reachable_allSome hr),
   fun arg id => emit_no_pushShutdown s arg id⟩

/-- C6 witness: the shutdown-sentinel discipline at the reachable state
`c1State` (which holds one strand slot with a live queue). -/
theorem C6_shutdown_sentinel_witness :
    Reachable c1State ∧ ShutdownSentinelSpec c1State := by
  have hr : Reachable c1State :=
    Reachable.connect STRAND 13 PoolState.init
      (Reachable.connect ASYNCHRONOUS 12 PoolState.init
        (Reachable.connect SYNCHRONOUS 11 PoolState.init
          (Reachable.connect SYNCHRONOUS 10 PoolState.init
            (Reachable.init false 1024))))
  exact ⟨hr, C6_shutdown_sentinel c1State hr⟩

/-- Event `e1` occurs strictly before event `e2` in a trace. -/
def Precedes {α : Type} (e1 e2 : α) (tr : List α) : Prop :=
  ∃ pre mid post, tr = pre ++ e1 :: (mid ++ e2 :: post)

theorem precedes_of_append {α : Type} {e1 e2 : α} {X Y : List α}
    (h1 : e1 ∈ X) (h2 : e2 ∈ Y) : Precedes e1 e2 (X ++ Y) := by
  obtain ⟨x1, x2, rfl⟩ := List.append_of_mem h1
  obtain ⟨y1, y2, rfl⟩ := List.append_of_mem h2
  exact ⟨x1, x2 ++ y1, y2, by simp⟩

/-- The `disconnectSlot` handshake for an id found in the strand registry:
push the shutdown sentinel, join the dedicated worker thread, destroy the
thread handle, destroy the queue, and only then remove the registration;
the post-state has exactly the thread, the queue and the strand registration
for that id removed. -/
def StrandDisconnectSpec {F A : Type} [DecidableEq F] [DecidableEq A]
    (s : SignalState F A) (id : Nat) : Prop :=
  (disconnectSlot id s).1
    = [Event.pushShutdown id, Event.joinStrand id, Event.releaseThread id,
       Event.releaseQueue id, Event.removeRegistration id] ∧
  (disconnectSlot id s).2
    = { s with
        strandThreads := setErase id s.strandThreads
        strandQueues := mapErase id s.strandQueues
        strandSlots := mapErase id s.strandSlots }

/-- The `disconnectAllSlots` handshake: for every strand, the shutdown push
precedes the join, the join precedes the destruction of the thread handle
and of the queue and the removal of the registration, and afterwards no
strand thread, queue or registration remains. -/
def DisconnectAllSpec {F A : Type} (s : SignalState F A) : Prop :=
  (∀ i ∈ s.strandThreads, i ∈ keys s.strandQueues →
    Precedes (Event.pushShutdown i) (Event.joinStrand i) (disconnectAllSlots s).1) ∧
  (∀ i ∈ s.strandThreads,
    Precedes (Event.joinStrand i) (Event.releaseThread i) (disconnectAllSlots s).1) ∧
  (∀ i ∈ s.strandThreads, i ∈ keys s.strandQueues →
    Precedes (Event.joinStrand i) (Event.releaseQueue i) (disconnectAllSlots s).1) ∧
  (∀ i ∈ s.strandThreads, i ∈ keys s.strandSlots →
    Precedes (Event.joinStrand i) (Event.removeRegistration i) (disconnectAllSlots s).1) ∧
  (disconnectAllSlots s).2.strandThreads = [] ∧
  (disconnectAllSlots s).2.strandQueues = [] ∧
  (disconnectAllSlots s).2.strandSlots = []

/-- C3: for an id registered in the Strand registry (and in no registry
searched before it), `disconnectSlot` performs exactly the shutdown
handshake — push the shutdown message, join the dedicated worker, release
the thread and queue, then remove the registration — and `disconnectAllSlots`
performs the same handshake for every strand: each strand's join precedes
the release of its thread handle and queue and the removal of its
registration. -/
theorem C3_strand_disconnect_handshake {F A : Type} [DecidableEq F] [DecidableEq A]
    (s : SignalState F A) (id : Nat)
    (h1 : containsKey id s.synchronousSlots = false)
    (h2 : containsKey id s.asynchronousSlots = false)
    (h3 : containsKey id s.strandSlots = true) :
    StrandDisconnectSpec s id ∧ DisconnectAllSpec s := by
  have hfind : findSlotMapWithId id s = some RegChoice.strand := by
    simp [findSlotMapWithId, h1, h2, h3]
  constructor
  · constructor
    · simp [disconnectSlot, hfind]
    · simp [disconnectSlot, hfind]
  · refine ⟨?_, ?_, ?_, ?_, rfl, rfl, rfl⟩
    · intro i hit hiq
      have hsplit : (disconnectAllSlots s).1
          = ((keys s.strandQueues).map Event.pushShutdown)
            ++ (s.strandThreads.map Event.joinStrand
              ++ (s.strandThreads.map Event.releaseThread
                ++ ((keys s.strandQueues).map Event.releaseQueue
                  ++ (keys s.synchronousSlots ++ keys s.asynchronousSlots
                      ++ keys s.strandSlots ++ keys s.threadPooledSlots).map
                      Event.removeRegistration))) := by
        simp [disconnectAllSlots, List.append_assoc]
      rw [hsplit]
      exact precedes_of_append (List.mem_map_of_mem Event.pushShutdown hiq)
        (List.mem_append_left _ (List.mem_map_of_mem Event.joinStrand hit))
    · intro i hit
      have hsplit : (disconnectAllSlots s).1
          = ((keys s.strandQueues).map Event.pushShutdown
              ++ s.strandThreads.map Event.joinStrand)
            ++ (s.strandThreads.map Event.releaseThread
              ++ ((keys s.strandQueues).map Event.releaseQueue
                ++ (keys s.synchronousSlots ++ keys s.asynchronousSlots
                    ++ keys s.strandSlots ++ keys s.threadPooledSlots).map
                    Event.removeRegistration)) := by
        simp [disconnectAllSlots, List.append_assoc]
      rw [hsplit]
      exact precedes_of_append
        (List.mem_append_right _ (List.mem_map_of_mem Event.joinStrand hit))
        (List.mem_append_left _ (List.mem_map_of_mem Event.releaseThread hit))
    · intro i hit hiq
      have hsplit : (disconnectAllSlots s).1
          = ((keys s.strandQueues).map Event.pushShutdown
              ++ s.strandThreads.map Event.joinStrand)
            ++ (s.strandThreads.map Event.releaseThread
              ++ ((keys s.strandQueues).map Event.releaseQueue
                ++ (keys s.synchronousSlots ++ keys s.asynchronousSlots
                    ++ keys s.strandSlots ++ keys s.threadPooledSlots).map
                    Event.removeRegistration)) := by
        simp [disconnectAllSlots, List.append_assoc]
      rw [hsplit]
      refine precedes_of_append
        (List.mem_append_right _ (List.mem_map_of_mem Event.joinStrand hit)) ?_
      exact List.mem_append_right _
        (List.mem_append_left _ (List.mem_map_of_mem Event.releaseQueue hiq))
    · intro i hit his
      have hsplit : (disconnectAllSlots s).1
          = ((keys s.strandQueues).map Event.pushShutdown
              ++ s.strandThreads.map Event.joinStrand)
            ++ (s.strandThreads.map Event.releaseThread
              ++ ((keys s.strandQueues).map Event.releaseQueue
                ++ (keys s.synchronousSlots ++ keys s.asynchronousSlots
                    ++ keys s.strandSlots ++ keys s.threadPooledSlots).map
                    Event.removeRegistration)) := by
        simp [disconnectAllSlots, List.append_assoc]
      rw [hsplit]
      refine precedes_of_append
        (List.mem_append_right _ (List.mem_map_of_mem Event.joinStrand hit)) ?_
      refine List.mem_append_right _ (List.mem_append_right _
        (List.mem_map_of_mem Event.removeRegistration ?_))
      exact List.mem_append_left _ (List.mem_append_right _ his)

/-- C3 witness: the handshake at `c1State`, whose strand slot has id 3. -/
theorem C3_strand_disconnect_handshake_witness :
    (containsKey 3 c1State.synchronousSlots = false ∧
     containsKey 3 c1State.asynchronousSlots = false ∧
     containsKey 3 c1State.strandSlots = true) ∧
    (StrandDisconnectSpec c1State 3 ∧ DisconnectAllSpec c1State) :=
  ⟨⟨by decide, by decide, by decide⟩,
   C3_strand_disconnect_handshake c1State 3 (by decide) (by decide) (by decide)⟩

/-- Observable steps of the strand worker loop `queueListener`
(lines 245–265).  The task type `T` stands for the stored
`std::function<void()>` closures; a queue entry is `Option T` with `none`
the empty-callable shutdown sentinel. -/
inductive LEvent (T : Type) where
  /-- The non-blocking `q.dequeue(func)` succeeded. -/
  | deqOk
  /-- The dequeued callable is executed (`if (func) func();`). -/
  | run (t : T)
  /-- `std::this_thread::sleep_for(waitTime)` with `waitTime` = `w` nanoseconds. -/
  | sleep (w : Nat)
  /-- `q.blockingDequeue(func)` returned. -/
  | deqBlocking
deriving DecidableEq

/-- Result of one iteration of the worker loop: continue with a new wait
time and remaining queue, exit the loop (shutdown observed), or park in
`blockingDequeue` on an empty queue. -/
inductive IterOut (T : Type) where
  | cont (evs : List (LEvent T)) (wait : Nat) (rest : List (Option T))
  | exit (evs : List (LEvent T))
  | blocked (evs : List (LEvent T))
deriving DecidableEq

/-- The trailing `if (waitTime > maxWait)` check of each loop iteration
(lines 259–263), performed after either the dequeue or the sleep branch:
when the wait time exceeds `maxWait`, perform the blocking dequeue, run the
result (or note shutdown), and reset the wait time to its 1 ns minimum;
otherwise fall through to the `while (func)` test (`alive` records whether
`func` is still a non-empty callable). -/
def listenerCheck {T : Type} (maxWait wait : Nat) (rest : List (Option T))
    (evs : List (LEvent T)) (alive : Bool) : IterOut T :=
  if maxWait < wait then
    match rest with
    | [] => .blocked evs
    | some t :: r => .cont (evs ++ [.deqBlocking, .run t]) 1 r
    | none :: _ => .exit (evs ++ [.deqBlocking])
  else if alive then .cont evs wait rest else .exit evs

/-- One iteration of `queueListener`'s `while (func)` loop, entered with the
current wait time and queue contents: a successful non-blocking dequeue runs
the task (or notes shutdown on the `none` sentinel) and resets the wait time
to 1 ns; an empty queue sleeps for the current wait time and doubles it;
then the trailing threshold check runs. -/
def listenerIter {T : Type} (maxWait wait : Nat) : List (Option T) → IterOut T
  | some t :: rest => listenerCheck maxWait 1 rest [.deqOk, .run t] true
  | none :: rest => listenerCheck maxWait 1 rest [.deqOk] false
  | [] => listenerCheck maxWait (2 * wait) [] [.sleep wait] true

/-- Resolution of the parked blocking dequeue once an entry is available
(lines 260–262): run it and reset the wait time to the 1 ns minimum, or
exit if it is the shutdown sentinel. -/
def listenerResume {T : Type} (tsk : Option T) : IterOut T :=
  match tsk with
  | some t => .cont [.deqBlocking, .run t] 1 []
  | none => .exit [.deqBlocking]

/-- The step behaviour of the worker loop as the spec describes it:
a successful non-blocking dequeue runs the task and resets the wait time to
its minimum (or exits on the shutdown sentinel); an empty queue sleeps for
the current wait time and doubles it, continuing while the doubled wait is
within the maximum; once the wait time exceeds the maximum the worker parks
in a blocking dequeue, whose resolution runs the task and resets the wait
time (or exits on shutdown). -/
def ListenerStepSpec (T : Type) (maxWait wait : Nat) (t : T)
    (rest : List (Option T)) : Prop :=
  listenerIter maxWait wait (some t :: rest)
    = IterOut.cont [LEvent.deqOk, LEvent.run t] 1 rest ∧
  listenerIter maxWait wait ((none : Option T) :: rest)
    = IterOut.exit [LEvent.deqOk] ∧
  (2 * wait ≤ maxWait →
    listenerIter maxWait wait ([] : List (Option T))
      = IterOut.cont [LEvent.sleep wait] (2 * wait) []) ∧
  (maxWait < 2 * wait →
    listenerIter maxWait wait ([] : List (Option T))
      = IterOut.blocked [LEvent.sleep wait]) ∧
  listenerResume (some t) = IterOut.cont [LEvent.deqBlocking, LEvent.run t] 1 [] ∧
  listenerResume (none : Option T) = IterOut.exit [LEvent.deqBlocking]

/-- C4: the strand worker loop follows exactly the claimed scheme (for any
maximum wait of at least the 1 ns minimum): attempt a non-blocking dequeue;
on success run the task (or exit on the shutdown sentinel) and reset the
wait time to its minimum; on an empty queue sleep for the current wait time
then double it; once the wait time exceeds the configured maximum, park in a
blocking dequeue whose result is run (or exits on shutdown) with the wait
time reset to the minimum. -/
theorem C4_listener_loop {T : Type} (maxWait wait : Nat) (t : T)
    (rest : List (Option T)) (hmw : 1 ≤ maxWait) :
    ListenerStepSpec T maxWait wait t rest := by
  have hn1 : ¬(maxWait < 1) := by omega
  refine ⟨?_, ?_, ?_, ?_, rfl, rfl⟩
  · simp [listenerIter, listenerCheck, hn1]
  · simp [listenerIter, listenerCheck, hn1]
  · intro h
    have hn2 : ¬(maxWait < 2 * wait) := by omega
    simp [listenerIter, listenerCheck, hn2]
  · intro h
    simp [listenerIter, listenerCheck, h]

/-- C4 witness: the loop contract at maximum wait 8 ns, current wait 2 ns,
with a concrete task (`7 : Nat`) and one queued task behind it. -/
theorem C4_listener_loop_witness :
    1 ≤ 8 ∧ ListenerStepSpec Nat 8 2 7 [some 9] :=
  ⟨by decide, C4_listener_loop 8 2 7 [some 9] (by decide)⟩

/-- Process-wide pool state after a sequence of `connectSlot` calls with the
given schemes — possibly issued by many different engine instances: the pool
state is process-global and `connectPoolEffect` does not depend on any
engine state. -/
def poolAfterConnects (schemes : List Nat) : PoolState :=
  schemes.foldl (fun ps sch => connectPoolEffect sch ps) PoolState.init

theorem poolFold_absorb (schemes : List Nat) :
    ∀ ps : PoolState, ps.started = true →
      schemes.foldl (fun ps sch => connectPoolEffect sch ps) ps = ps := by
  induction schemes with
  | nil => intro ps _; rfl
  | cons sch rest ih =>
    intro ps h
    have habs : connectPoolEffect sch ps = ps := by
      unfold connectPoolEffect poolStartup
      by_cases hs : sch = THREAD_POOLED <;> simp [hs, h]
    rw [List.foldl_cons, habs]
    exact ih ps h

theorem poolAfter_eq (schemes : List Nat) :
    poolAfterConnects schemes
      = if THREAD_POOLED ∈ schemes then { started := true, startCount := 1 }
        else PoolState.init := by
  induction schemes with
  | nil => simp [poolAfterConnects]
  | cons sch rest ih =>
    by_cases hs : sch = THREAD_POOLED
    · have h1 : connectPoolEffect sch PoolState.init
          = { started := true, startCount := 1 } := by
        simp [connectPoolEffect, poolStartup, PoolState.init, hs]
      unfold poolAfterConnects
      rw [List.foldl_cons, h1, poolFold_absorb rest _ rfl]
      simp [hs]
    · have h1 : connectPoolEffect sch PoolState.init = PoolState.init := by
        simp [connectPoolEffect, hs]
      unfold poolAfterConnects at ih ⊢
      rw [List.foldl_cons, h1, ih]
      have hmem : (THREAD_POOLED ∈ sch :: rest) ↔ (THREAD_POOLED ∈ rest) := by
        rw [List.mem_cons]
        constructor
        · rintro (he | hr)
          · exact absurd he.symm hs
          · exact hr
        · exact Or.inr
      by_cases hr : THREAD_POOLED ∈ rest <;> simp [hr, hmem]

/-- C8: every THREAD_POOLED connect invokes the pool's one-time start-up
(`WheeledThreadPool::startup()`, modelled from the spec as idempotent
one-time initialization), and over any sequence of connect calls from any
number of engine instances the start-up body runs exactly once as soon as
at least one Pooled-scheme connect occurs — and never otherwise. -/
theorem C8_pool_startup_once (schemes : List Nat) :
    ((poolAfterConnects schemes).startCount
      = if THREAD_POOLED ∈ schemes then 1 else 0) ∧
    ((poolAfterConnects schemes).started = true ↔ THREAD_POOLED ∈ schemes) ∧
    (∀ ps : PoolState, connectPoolEffect THREAD_POOLED ps = poolStartup ps) ∧
    (∀ ps : PoolState, (connectPoolEffect THREAD_POOLED ps).started = true) ∧
    (∀ (scheme : Nat) (f : Nat) (s : SignalState Nat Nat) (ps : PoolState),
      (connectSlot scheme f s ps).2.2 = connectPoolEffect scheme ps) := by
  refine ⟨?_, ?_, fun ps => by simp [connectPoolEffect, THREAD_POOLED], ?_, fun _ _ _ _ => rfl⟩
  · rw [poolAfter_eq]
    by_cases h : THREAD_POOLED ∈ schemes <;> simp [h, PoolState.init]
  · rw [poolAfter_eq]
    by_cases h : THREAD_POOLED ∈ schemes <;> simp [h, PoolState.init]
  · intro ps
    unfold connectPoolEffect poolStartup
    by_cases h : ps.started <;> simp [h]

end BSignals
